import Mathlib

/-!
Verification development for the conda package cache and progressive
fetch/extract pipeline (src/conda/core/package_cache.py and
src/conda/models/dist.py), shallowly embedded in Lean 4.

Python strings become Lean `String` (compared lexicographically by code
point, as Python does; we compare through the character data so that every
comparison is kernel-computable), Python `None`-able values become
`Option`, raisable code returns `Except`, and the filesystem and
interpreter services that live outside the two source files (disk
gateways, Channel parsing, the string hash) are passed in as explicit
parameters or oracle values.
-/

set_option maxRecDepth 8000

deriving instance DecidableEq for Except

namespace CondaPC

/-- Python string less-than: lexicographic by code point, which is the
lexicographic list order on the character data. -/
def strLt (a b : String) : Prop := a.data < b.data

/-- Python string less-or-equal, on the character data. -/
def strLe (a b : String) : Prop := a.data ≤ b.data

instance : DecidableRel strLt := fun a b => inferInstanceAs (Decidable (a.data < b.data))

instance : DecidableRel strLe := fun a b => inferInstanceAs (Decidable (a.data ≤ b.data))

instance : IsTotal String strLe := ⟨fun a b => le_total a.data b.data⟩

instance : IsTrans String strLe := ⟨fun _ _ _ h h2 => le_trans h h2⟩

/-- Fixed tarball extension, `CONDA_TARBALL_EXTENSION` from base/constants
(the spec fixes it to the literal ".tar.bz2"). -/
def CONDA_TARBALL_EXTENSION : String := ".tar.bz2"

/-- The "<unknown>" channel sentinel, `UNKNOWN_CHANNEL` from base/constants,
quoted verbatim in the spec. -/
def UNKNOWN_CHANNEL : String := "<unknown>"

/-- `os.path.basename`: the part of a path after the last slash. -/
def osBasename (p : String) : String := ⟨(p.data.splitOn '/').getLastD []⟩

/-- `os.path.dirname`: the part of a path before the last slash
(empty when the path has no slash). -/
def osDirname (p : String) : String :=
  let parts := p.data.splitOn '/'
  if parts.length ≤ 1 then "" else ⟨List.intercalate ['/'] parts.dropLast⟩

/-- Python `s.endswith(t)`, on the character data. -/
def strEndsWith (s t : String) : Bool := t.data.isSuffixOf s.data

/-- Python `s[:-n]` for n at most the length: drop the final n characters. -/
def strDropRight (s : String) (n : Nat) : String := ⟨s.data.take (s.data.length - n)⟩

/-- Python `str.rsplit(c, 1)[-1]` for the colon: the substring after the
last colon, or the whole string when it has none.  Used by
`get_entry_to_link` and `_scan_for_dist_no_channel` to strip the channel
from a dist string. -/
def rsplitColonLast (s : String) : String := ⟨(s.data.splitOn ':').getLastD s.data⟩

/-- Modelled from the spec: `path_to_url` (conda/common/url.py is not in
src/); the spec only uses that it yields a `file://` URL for a path. -/
def path_to_url (p : String) : String := "file://" ++ p

/-- Python truthiness of an optional string: `None` and `""` are falsy. -/
def truthy : Option String → Bool
  | none => false
  | some s => s ≠ ""

/-! ## UrlsData (section 4.B of the spec)

`UrlsData._urls_data` is a `defaultdict(list)` mapping a bucket key
(`None` for the root-level urls.txt, or "channel_safe_name/subdir") to a
newest-first list of URLs.  We keep the buckets as an association list in
dict insertion order: a missing key accessed through the defaultdict is
appended at the end, an existing key keeps its position.  On-disk appends
are not modelled; the claims are about the in-memory mapping. -/

/-- One `self._urls_data[key].insert(0, url)` through the defaultdict. -/
def bucketPrepend (key : Option String) (url : String) :
    List (Option String × List String) → List (Option String × List String)
  | [] => [(key, [url])]
  | (k, us) :: rest =>
      if k = key then (k, url :: us) :: rest
      else (k, us) :: bucketPrepend key url rest

structure UrlsData where
  buckets : List (Option String × List String)
deriving DecidableEq, Repr

/-- `UrlsData.add_url`.  `chanInfo` stands for the external
`Channel(url)` constructor (conda/models/channel.py is not in src/):
it returns `some (channel.safe_name, channel.subdir)` when the parsed
channel has a truthy subdir and `none` otherwise.  The code first
prepends to the per-subdir bucket when the subdir is known, then always
prepends to the global (`None`) bucket. -/
def add_url (chanInfo : String → Option (String × String)) (ud : UrlsData)
    (url : String) : UrlsData :=
  if url = "" then ud
  else
    let ud1 : UrlsData :=
      match chanInfo url with
      | some (channel_safe_name, subdir) =>
          ⟨bucketPrepend (some (channel_safe_name ++ "/" ++ subdir)) url ud.buckets⟩
      | none => ud
    ⟨bucketPrepend none url ud1.buckets⟩

/-- `UrlsData.get_url`.  The source computes the target filename, then
evaluates `first(self._urls_data, lambda url: url and basename(url) == filename)`.
Iterating a dict yields its KEYS, so the predicate is tested against the
bucket keys (`None`, which is falsy and always skipped, and the
"safe_name/subdir" strings), never against the stored URLs; the matching
key itself would be returned. -/
def get_url (ud : UrlsData) (package_fn_or_path : String) : Option String :=
  let fn := osBasename package_fn_or_path
  let filename := if strEndsWith fn CONDA_TARBALL_EXTENSION then fn
                  else fn ++ CONDA_TARBALL_EXTENSION
  (ud.buckets.map Prod.fst).findSome? fun key =>
    match key with
    | none => none
    | some k => if k ≠ "" ∧ osBasename k = filename then some k else none

/-! ## Directory listing dedup (PackageCache._dedupe_pkgs_dir_contents) -/

/-- Python `sorted` on strings: lexicographic by code point (`strLe`). -/
def sortList (l : List String) : List String := List.insertionSort strLe l

/-- The body of `_process(x, y)` inside `_dedupe_pkgs_dir_contents`,
acting on the accumulated `contents` list and the reduce carry. -/
def dedupeStep (acc : List String × String) (y : String) : List String × String :=
  if acc.2 ++ CONDA_TARBALL_EXTENSION ≠ y then (acc.1 ++ [acc.2], y) else (acc.1, y)

/-- `PackageCache._dedupe_pkgs_dir_contents`: sort the listing, run
`reduce(_process, sorted_contents)` (which appends every element whose
immediate successor is not itself plus the tarball extension), then run
one final `_process(last, contents and contents[-1] or "")` on the reduce
result against the last appended element (or the empty string). -/
def _dedupe_pkgs_dir_contents (pkgs_dir_contents : List String) : List String :=
  match sortList pkgs_dir_contents with
  | [] => []
  | x :: rest =>
      let p := rest.foldl dedupeStep ([], x)
      if p.2 ++ CONDA_TARBALL_EXTENSION ≠ p.1.getLastD "" then p.1 ++ [p.2] else p.1

/-- The pair-dedup rule in the words of the spec (section 4.C): on the
sorted listing, iterate adjacent pairs (x, y); when y equals x plus the
tarball extension drop x, otherwise emit x; always emit the final
element. -/
def pairDedupSpec : List String → List String
  | [] => []
  | [x] => [x]
  | x :: y :: rest =>
      if x ++ CONDA_TARBALL_EXTENSION = y then pairDedupSpec (y :: rest)
      else x :: pairDedupSpec (y :: rest)

/-! ## Package references and cache records (data model, spec section 3)

`PackageRef` lives in conda/models/index_record.py, which is not in src/;
its fields and equality are modelled from the spec: equality is by the
(channel, name, version, build_string, build_number) tuple, and other
fields (md5, size, url, fn) ride along. -/

structure PackageRef where
  channel : String
  name : String
  version : String
  build_string : String
  build_number : Int
  md5 : Option String := none
  size : Option Int := none
  url : Option String := none
  fn : String := ""
deriving DecidableEq, Repr

/-- Modelled from the spec: `PackageRef` equality
(conda/models/index_record.py is not in src/): "Equality is by
(channel, name, version, build_string, build_number)". -/
def refMatch (a b : PackageRef) : Bool :=
  a.channel == b.channel && a.name == b.name && a.version == b.version
    && a.build_string == b.build_string && a.build_number == b.build_number

/-- Modelled from the spec: `PackageRef.dist_str`
(conda/models/index_record.py is not in src/): the stable string key
"<channel>::<name>-<version>-<build>". -/
def PackageRef.dist_str (r : PackageRef) : String :=
  r.channel ++ "::" ++ r.name ++ "-" ++ r.version ++ "-" ++ r.build_string

/-- One `PackageCacheRecord` (conda/models/package_cache_record.py is not
in src/): a `PackageRef` identity plus the cache-entry side channel used
by the planner and by `get_entry_to_link`.  `is_fetched` and
`is_extracted` are the on-disk facts "tarball file exists" and
"extracted dir with info/index.json exists", carried as booleans;
`channel_safe_name` and `subdir` are the values of
`record.channel.safe_name` and `record.subdir`. -/
structure PackageCacheRecord where
  ref : PackageRef
  is_fetched : Bool
  is_extracted : Bool
  package_tarball_full_path : String := ""
  extracted_package_dir : String := ""
  md5 : Option String := none
  channel_safe_name : String := ""
  subdir : String := ""
  fn : String := ""
deriving DecidableEq, Repr

/-- One `PackageCache` root: its path, the writability probe outcome, and
`_package_cache_records` in insertion order.  A whole configuration is an
ordered `List PCache` standing for `context.pkgs_dirs`. -/
structure PCache where
  pkgs_dir : String
  writable : Bool
  records : List PackageCacheRecord
deriving DecidableEq, Repr

/-- `PackageCache.query` applied to a `PackageRef`: the records equal to
the ref (`pcrec == param`, which is `PackageRef` equality). -/
def PCache.query (c : PCache) (ref : PackageRef) : List PackageCacheRecord :=
  c.records.filter fun r => refMatch r.ref ref

/-- `PackageCache.writable_caches`: the writable roots in declared order;
raises CondaError when there are none. -/
def writable_caches (caches : List PCache) : Except String (List PCache) :=
  let w := caches.filter (·.writable)
  if w.isEmpty then .error "CondaError: No writable package cache directories found"
  else .ok w

/-- `PackageCache.read_only_caches`: the non-writable roots in declared order. -/
def read_only_caches (caches : List PCache) : List PCache :=
  caches.filter fun c => !c.writable

/-- `PackageCache.query_all`: concatenate the queries of the writable
caches, then of the read-only caches (propagating the CondaError of
`writable_caches`). -/
def query_all (caches : List PCache) (ref : PackageRef) :
    Except String (List PackageCacheRecord) := do
  let w ← writable_caches caches
  .ok ((w ++ read_only_caches caches).flatMap fun c => c.query ref)

/-- `PackageCache._scan_for_dist_no_channel`: first record of this cache
whose channel-stripped dist string equals the argument. -/
def _scan_for_dist_no_channel (c : PCache) (dist_str : String) :
    Option PackageCacheRecord :=
  c.records.find? fun r => rsplitColonLast r.ref.dist_str == dist_str

/-- `PackageCache.get_entry_to_link`.  First phase: the first extracted
record among `query_all(ref)` (writable caches first).  Fallback: the
source evaluates
`next((cache._scan_for_dist_no_channel(dist_str) for cache in caches if cache), None)`;
`next` takes the FIRST item the generator yields, which is the first
(writable) cache's scan result — possibly `None` — so later caches are
never consulted.  Raises CondaError when that value is `None`. -/
def get_entry_to_link (caches : List PCache) (ref : PackageRef) :
    Except String PackageCacheRecord := do
  let qa ← query_all caches ref
  match qa.find? (·.is_extracted) with
  | some r => .ok r
  | none =>
    let w ← writable_caches caches
    let dist_str := rsplitColonLast ref.dist_str
    match w ++ read_only_caches caches with
    | [] => .error "CondaError: No package found in cache directories."
    | c :: _ =>
      match _scan_for_dist_no_channel c dist_str with
      | some r => .ok r
      | none => .error "CondaError: No package found in cache directories."

/-! ## The action planner (ProgressiveFetchExtract.make_actions_for_record) -/

/-- A `CacheUrlAction` as constructed by the planner
(conda/core/path_actions.py itself is not in src/; only the constructor
arguments recorded here are relevant to the claims). -/
structure CacheUrlAction where
  url : String
  target_pkgs_dir : String
  target_pkgs_dir_channel_name : Option String
  target_pkgs_dir_subdir : Option String
  target_package_basename : String
  md5sum : Option String
  expected_size_in_bytes : Option Int
deriving DecidableEq, Repr

/-- Modelled from the spec: `CacheUrlAction.target_full_path`
(conda/core/path_actions.py is not in src/): the fetch target is
"<target_root>/<basename>", or
"<target_root>/<channel>/<subdir>/<basename>" when channel and subdir
are set (spec section 4.G). -/
def CacheUrlAction.target_full_path (a : CacheUrlAction) : String :=
  match a.target_pkgs_dir_channel_name, a.target_pkgs_dir_subdir with
  | some c, some s =>
      a.target_pkgs_dir ++ "/" ++ c ++ "/" ++ s ++ "/" ++ a.target_package_basename
  | _, _ => a.target_pkgs_dir ++ "/" ++ a.target_package_basename

/-- An `ExtractPackageAction` as constructed by the planner. -/
structure ExtractPackageAction where
  source_full_path : String
  target_pkgs_dir : String
  target_pkgs_dir_channel_name : Option String
  target_pkgs_dir_subdir : Option String
  target_extracted_dirname : String
  md5sum : Option String
deriving DecidableEq, Repr

/-- `ProgressiveFetchExtract.make_actions_for_record`, the decision
ladder R0-R3 of spec section 4.F, over the configured caches in
`context.pkgs_dirs` order.  `parseChannel` stands for the external
`Channel(url)` constructor used in the R3 branch, returning
`some (safe_name, subdir)` when the URL parses with a truthy subdir.
Raisable paths (no writable cache; missing url in R3) are `.error`. -/
def make_actions_for_record (caches : List PCache)
    (parseChannel : String → Option (String × String)) (pref : PackageRef) :
    Except String (Option CacheUrlAction × Option ExtractPackageAction) :=
  let md5 := pref.md5
  -- R0: an md5 is given and some cache holds an extracted record equal to the ref
  if truthy md5 ∧ ((caches.flatMap fun c => c.query pref).any (·.is_extracted)) then
    .ok (none, none)
  else
    match (writable_caches caches : Except String (List PCache)) with
    | .error e => .error e
    | .ok ws =>
      match ws with
      | [] => .error "CondaError: No writable package cache directories found"
      | first_writable :: _ =>
        -- R1: a fetched record in some writable cache: extract in place
        match (ws.flatMap fun c => c.query pref).find? (·.is_fetched) with
        | some w =>
          .ok (none, some {
            source_full_path := w.package_tarball_full_path
            target_pkgs_dir := osDirname w.package_tarball_full_path
            target_pkgs_dir_channel_name := some w.channel_safe_name
            target_pkgs_dir_subdir := some w.subdir
            target_extracted_dirname := osBasename w.extracted_package_dir
            md5sum := w.md5 })
        | none =>
          -- R2: a fetched record in a read-only cache: link into first writable, extract
          match ((read_only_caches caches).flatMap fun c => c.query pref).find?
              (·.is_fetched) with
          | some r =>
            let cache_axn : CacheUrlAction := {
              url := path_to_url r.package_tarball_full_path
              target_pkgs_dir := first_writable.pkgs_dir
              target_pkgs_dir_channel_name := some r.channel_safe_name
              target_pkgs_dir_subdir := some r.subdir
              target_package_basename := r.fn
              md5sum := md5
              expected_size_in_bytes := pref.size }
            .ok (some cache_axn, some {
              source_full_path := cache_axn.target_full_path
              target_pkgs_dir := first_writable.pkgs_dir
              target_pkgs_dir_channel_name := some r.channel_safe_name
              target_pkgs_dir_subdir := some r.subdir
              target_extracted_dirname :=
                strDropRight r.fn CONDA_TARBALL_EXTENSION.data.length
              md5sum := r.md5 })
          | none =>
            -- R3: download from the url of the ref (`assert url`)
            if truthy pref.url then
              let u := pref.url.getD ""
              let cs : Option String × Option String :=
                match parseChannel u with
                | some (c, s) => (some c, some s)
                | none => (none, none)
              let cache_axn : CacheUrlAction := {
                url := u
                target_pkgs_dir := first_writable.pkgs_dir
                target_pkgs_dir_channel_name := cs.1
                target_pkgs_dir_subdir := cs.2
                target_package_basename := pref.fn
                md5sum := md5
                expected_size_in_bytes := pref.size }
              .ok (some cache_axn, some {
                source_full_path := cache_axn.target_full_path
                target_pkgs_dir := first_writable.pkgs_dir
                target_pkgs_dir_channel_name := cs.1
                target_pkgs_dir_subdir := cs.2
                target_extracted_dirname :=
                  strDropRight pref.fn CONDA_TARBALL_EXTENSION.data.length
                md5sum := md5 })
            else .error "AssertionError: url"

/-! ## The executor (ProgressiveFetchExtract.execute / _execute_actions)

The paired actions are abstracted to behaviors: an id plus oracle bits
saying whether `verify()` or `execute()` raises when called (the download
and tar collaborators behind them are external).  The executor's visible
behavior is the sequence of verify / execute / reverse / cleanup calls it
makes, plus either a normal return or an aggregated CondaMultiError
carrying the captured per-ref exceptions (identified by the id of the
action that raised). -/

structure AxnBehavior where
  id : Nat
  verify_fails : Bool := false
  exec_fails : Bool := false
deriving DecidableEq, Repr

inductive AxnEv where
  | verify (id : Nat)
  | execute (id : Nat)
  | reverse (id : Nat)
  | cleanup (id : Nat)
deriving DecidableEq, Repr

/-- Calling `axn.verify()` then `axn.execute(cb)` on one optional action
(absent actions are skipped): the calls made, and the raised exception if
any. -/
def runPhase : Option AxnBehavior → List AxnEv × Option Nat
  | none => ([], none)
  | some a =>
      if a.verify_fails then ([.verify a.id], some a.id)
      else if a.exec_fails then ([.verify a.id, .execute a.id], some a.id)
      else ([.verify a.id, .execute a.id], none)

/-- The except-branch of `_execute_actions`: `extract_axn.reverse()` when
present, then `cache_axn.reverse()` when present. -/
def reverseTrace (cache_axn extract_axn : Option AxnBehavior) : List AxnEv :=
  (match extract_axn with | some e => [.reverse e.id] | none => [])
    ++ (match cache_axn with | some c => [.reverse c.id] | none => [])

/-- The else-branch of `_execute_actions`: `cache_axn.cleanup()` when
present, then `extract_axn.cleanup()` when present. -/
def cleanupTrace (cache_axn extract_axn : Option AxnBehavior) : List AxnEv :=
  (match cache_axn with | some c => [.cleanup c.id] | none => [])
    ++ (match extract_axn with | some e => [.cleanup e.id] | none => [])

/-- `ProgressiveFetchExtract._execute_actions` for one ref: immediate
return when the plan is (None, None); otherwise try fetch (verify,
execute) then extract (verify, execute); on an exception reverse the
extract action first and then the fetch action and return the exception;
on success clean both up. -/
def execute_actions (cache_axn extract_axn : Option AxnBehavior) :
    List AxnEv × Option Nat :=
  match cache_axn, extract_axn with
  | none, none => ([], none)
  | _, _ =>
    let p1 := runPhase cache_axn
    match p1.2 with
    | some ex => (p1.1 ++ reverseTrace cache_axn extract_axn, some ex)
    | none =>
      let p2 := runPhase extract_axn
      match p2.2 with
      | some ex => (p1.1 ++ p2.1 ++ reverseTrace cache_axn extract_axn, some ex)
      | none => (p1.1 ++ p2.1 ++ cleanupTrace cache_axn extract_axn, none)

/-- One prepared batch: `paired_actions`, an insertion-ordered mapping
from ref (identified by a Nat key) to its planned
(cache action, extract action) pair. -/
abbrev PairedActions := List (Nat × (Option AxnBehavior × Option AxnBehavior))

/-- The `cache_actions` property: all non-None fetch actions, batch-wide. -/
def cache_actions (pa : PairedActions) : List AxnBehavior :=
  pa.filterMap fun p => p.2.1

/-- The `extract_actions` property: all non-None extract actions, batch-wide. -/
def extract_actions (pa : PairedActions) : List AxnBehavior :=
  pa.filterMap fun p => p.2.2

/-- The batch-level guard at the top of `execute()`:
`if not self.cache_actions or not self.extract_actions: return`. -/
def executeGuardReturns (pa : PairedActions) : Bool :=
  (cache_actions pa).isEmpty || (extract_actions pa).isEmpty

/-- `ProgressiveFetchExtract.execute` on a prepared batch: after the
batch-level guard, run `_execute_actions` for every ref in insertion
order, collect the returned exceptions, and finally raise them as one
CondaMultiError when any were captured.  Result: the full call trace and
the normal/raised outcome. -/
def pfe_execute (pa : PairedActions) : List AxnEv × Except (List Nat) Unit :=
  if executeGuardReturns pa then ([], .ok ())
  else
    let per := pa.map fun p => execute_actions p.2.1 p.2.2
    let exceptions := per.filterMap (·.2)
    ((per.map (·.1)).flatten,
      if exceptions.isEmpty then .ok () else .error exceptions)

/-! ## Writability probing (PackageCache.is_writable / _check_writable)

The disk gateways behind the probe (file_path_is_writable,
create_package_cache_directory) are external; one access sees an oracle
`ProbeEnv` describing what they would report at that moment. -/

structure ProbeEnv where
  dir_exists : Bool
  probe_ok : Bool
  create_ok : Bool
deriving DecidableEq, Repr

inductive ProbeEv where
  | probedMagicFile
  | createdCacheDir
deriving DecidableEq, Repr

/-- `PackageCache._check_writable`: when the root directory exists, probe
the magic file for write permission; otherwise create the directory and
magic file (`create_package_cache_directory`) and report whether that
succeeded.  Returns the determined value and the gateway call made. -/
def check_writable (env : ProbeEnv) : Bool × List ProbeEv :=
  if env.dir_exists then (env.probe_ok, [.probedMagicFile])
  else (env.create_ok, [.createdCacheDir])

/-- The `is_writable` property: `self.__is_writable or self._check_writable()`.
A cached True is returned with no gateway call; a cached False is falsy,
so the probe runs again; an unset cache (None) also probes.  Returns
(reported value, gateway calls) and the new cached value. -/
def is_writable_access (env : ProbeEnv) :
    Option Bool → (Bool × List ProbeEv) × Option Bool
  | some true => ((true, []), some true)
  | _ =>
      let c := check_writable env
      ((c.1, c.2), some c.1)

/-- A sequence of `is_writable` reads, each under its own oracle:
the reported values in order and the final cached value. -/
def run_accesses : List ProbeEnv → Option Bool → List Bool × Option Bool
  | [], st => ([], st)
  | e :: rest, st =>
      let a := is_writable_access e st
      let r := run_accesses rest a.2
      (a.1.1 :: r.1, r.2)

/-! ## Dist (src/conda/models/dist.py) -/

structure Dist where
  channel : String
  name : String
  version : String
  build_string : String
  build_number : Int
  with_features_depends : Option String
deriving DecidableEq, Repr

/-- `Dist.dist_name`: the name alone for feature packages (name ending in
"@"), otherwise "name-version-build_string". -/
def Dist.dist_name (d : Dist) : String :=
  if strEndsWith d.name "@" then d.name
  else d.name ++ "-" ++ d.version ++ "-" ++ d.build_string

/-- `Dist.pkey`: the name alone for feature packages; otherwise
"channel::name-version-build" when the channel is truthy and not the
"<unknown>" sentinel, else "name-version-build".  Neither build_number
nor with_features_depends takes part. -/
def Dist.pkey (d : Dist) : String :=
  if strEndsWith d.name "@" then d.name
  else if d.channel ≠ "" ∧ d.channel ≠ UNKNOWN_CHANNEL then
    d.channel ++ "::" ++ d.name ++ "-" ++ d.version ++ "-" ++ d.build_string
  else d.name ++ "-" ++ d.version ++ "-" ++ d.build_string

/-- The other operand of `Dist.__eq__`: a Dist, a plain string, or any
other object carrying whatever its Python hash would be. -/
inductive PyObj where
  | dist (d : Dist)
  | str (s : String)
  | other (hashVal : Int)
deriving DecidableEq, Repr

/-- Python `hash` on the object kinds we model, parameterized by the
interpreter's string hash `hs` (CPython guarantees equal strings hash
equal, which any function satisfies).  `Dist.__hash__` returns
`hash(self.pkey)`. -/
def pyHash (hs : String → Int) : PyObj → Int
  | .dist d => hs d.pkey
  | .str s => hs s
  | .other v => v

/-- `Dist.__eq__`: `hash(self) == hash(other)`, nothing else. -/
def Dist.eqPy (hs : String → Int) (d : Dist) (o : PyObj) : Bool :=
  pyHash hs (.dist d) == pyHash hs o

/-- `Dist.__key__`: the tuple (channel, dist_name, with_features_depends). -/
def Dist.keyTuple (d : Dist) : String × String × Option String :=
  (d.channel, d.dist_name, d.with_features_depends)

/-- Python tuple comparison of `__key__()` tuples, as in `Dist.__lt__`:
compare channel strings, then dist_name strings, then
with_features_depends, where comparing None against a string in the last
slot is a TypeError (modelled as `.error`). -/
def keyTupleLt : String × String × Option String → String × String × Option String →
    Except Unit Bool
  | (c, n, w), (c2, n2, w2) =>
    if c ≠ c2 then .ok (decide (strLt c c2))
    else if n ≠ n2 then .ok (decide (strLt n n2))
    else
      match w, w2 with
      | none, none => .ok false
      | some a, some b => .ok (decide (strLt a b))
      | _, _ => .error ()

/-- `Dist.__lt__`: `self.__key__() < other.__key__()`. -/
def Dist.ltPy (d d2 : Dist) : Except Unit Bool := keyTupleLt d.keyTuple d2.keyTuple

/-- The ordering stated by the claim: lexicographic over the full
(channel, name, version, build_string, build_number) tuple.  Written
from the words of the claim, to be compared with `Dist.ltPy`. -/
def claimTupleLt (d d2 : Dist) : Bool :=
  if d.channel ≠ d2.channel then decide (strLt d.channel d2.channel)
  else if d.name ≠ d2.name then decide (strLt d.name d2.name)
  else if d.version ≠ d2.version then decide (strLt d.version d2.version)
  else if d.build_string ≠ d2.build_string then decide (strLt d.build_string d2.build_string)
  else decide (d.build_number < d2.build_number)

/-- The 5-tuple the claim says decides Dist equality. -/
def claimTuple (d : Dist) : String × String × String × String × Int :=
  (d.channel, d.name, d.version, d.build_string, d.build_number)




/-! ## Helper definitions for the dedup proofs -/

/-- The elements appended by the reduce pass of `_dedupe_pkgs_dir_contents`
when it walks the pairs of `x :: ys`: x is appended exactly when its
immediate successor is not x plus the tarball extension. -/
def pairsOut : String → List String → List String
  | _, [] => []
  | x, y :: ys =>
      (if x ++ CONDA_TARBALL_EXTENSION = y then [] else [x]) ++ pairsOut y ys

/-- The carry left by the reduce pass: the final element of `x :: ys`. -/
def lastOf : String → List String → String
  | x, [] => x
  | _, y :: ys => lastOf y ys

/-- The tarball extension appended n times. -/
def extPow : Nat → String
  | 0 => ""
  | n + 1 => extPow n ++ CONDA_TARBALL_EXTENSION

/-- No element is immediately followed by itself plus the tarball
extension. -/
def noAdjPair (l : List String) : Prop :=
  List.Chain' (fun a b => a ++ CONDA_TARBALL_EXTENSION ≠ b) l

/-! ## Concrete sample inputs for counterexamples and witnesses -/

/-- A concrete interpreter string hash (any function qualifies as one). -/
def hsLen : String → Int := fun s => (s.data.length : Int)

/-- The ref of scenario S2: name x, version 1, build 0, md5 given. -/
def s2ref : PackageRef :=
  { channel := "defaults", name := "x", version := "1", build_string := "0",
    build_number := 0, md5 := some "abc" }

/-- An extracted cache record equal to `s2ref`. -/
def s2rec : PackageCacheRecord :=
  { ref := s2ref, is_fetched := true, is_extracted := true, md5 := some "abc" }

/-- A read-only cache holding `s2rec`. -/
def s2cache : PCache := { pkgs_dir := "/ro", writable := false, records := [s2rec] }

/-- A ref whose channel provenance differs from what the caches hold. -/
def unkRef : PackageRef :=
  { channel := "chanA", name := "x", version := "1", build_string := "0", build_number := 0 }

/-- A record for the same package as `unkRef` but under another channel:
it matches by channel-stripped dist string only. -/
def roRec : PackageCacheRecord :=
  { ref := { channel := "chanB", name := "x", version := "1", build_string := "0",
             build_number := 0 },
    is_fetched := true, is_extracted := true }

/-- An empty writable cache. -/
def wCacheEmpty : PCache := { pkgs_dir := "/w", writable := true, records := [] }

/-- A read-only cache holding `roRec`. -/
def roCacheHit : PCache := { pkgs_dir := "/ro", writable := false, records := [roRec] }

/-- A prepared batch with a single ref planned (None, extract). -/
def extractOnlyBatch : PairedActions := [(0, (none, some { id := 1 }))]

/-- A prepared batch whose first ref has a failing fetch and whose second
ref is healthy. -/
def mixedBatch : PairedActions :=
  [(0, (some { id := 1, exec_fails := true }, some { id := 2 })),
   (1, (some { id := 3 }, some { id := 4 }))]

/-- A URL whose channel parses with safe name "ch" and subdir "linux-64". -/
def exampleUrl : String := "https://repo.example/ch/linux-64/a-1-0.tar.bz2"

/-- The `Channel` parse outcome for `exampleUrl`. -/
def exampleChanInfo : String → Option (String × String) :=
  fun s => if s = exampleUrl then some ("ch", "linux-64") else none

/-- A listing with a duplicated name next to its tarball. -/
def dupListing : List String := ["x-1-0", "x-1-0", "x-1-0.tar.bz2"]

/-- A duplicate-free listing. -/
def nodupListing : List String := ["a-1-0", "a-1-0.tar.bz2", "b-2-0"]

/-- Two Dists differing only in build_number and with_features_depends. -/
def distEqA : Dist := ⟨"ch", "a", "1", "0", 0, none⟩

/-- See `distEqA`. -/
def distEqB : Dist := ⟨"ch", "a", "1", "0", 7, some "feat"⟩

/-- Two Dists on which the source ordering and the 5-tuple ordering
disagree: by name, "a" precedes "a-1"; by dist_name, "a-1-0-c" precedes
"a-2-b". -/
def distLtA : Dist := ⟨"ch", "a", "2", "b", 0, none⟩

/-- See `distLtA`. -/
def distLtB : Dist := ⟨"ch", "a-1", "0", "c", 0, none⟩

/-- A probe moment at which the root exists and is not writable. -/
def probeDenied : ProbeEnv := ⟨true, false, false⟩

/-- A probe moment at which the root exists and is writable. -/
def probeGranted : ProbeEnv := ⟨true, true, false⟩

/-- What `execute()` observably does on a batch, stated per the claim:
the call trace is the concatenation of the per-ref traces in insertion
order; the outcome is a normal return when no per-ref exception was
captured and the aggregated multi-error of all captured exceptions
otherwise; and any ref whose actions raised had its trace end in the
reversal calls (extract first, then fetch) with its exception captured. -/
def executeBehaviorSpec (pa : PairedActions) : Prop :=
  (pfe_execute pa).1 = ((pa.map fun p => execute_actions p.2.1 p.2.2).map (·.1)).flatten
  ∧ (pfe_execute pa).2 =
      (if ((pa.map fun p => execute_actions p.2.1 p.2.2).filterMap (·.2)).isEmpty
       then Except.ok () else
         Except.error ((pa.map fun p => execute_actions p.2.1 p.2.2).filterMap (·.2)))
  ∧ ∀ p ∈ pa, ∀ ex, (execute_actions p.2.1 p.2.2).2 = some ex →
      (∃ t, (execute_actions p.2.1 p.2.2).1 = t ++ reverseTrace p.2.1 p.2.2)
      ∧ ex ∈ (pa.map fun p => execute_actions p.2.1 p.2.2).filterMap (·.2)

-- theorems follow


/-! ## Theorems -/

/-- Unfolding of `_execute_actions` when at least one action is present:
run the fetch phase; on its exception reverse and stop; otherwise run the
extract phase; on its exception reverse, else clean up. -/
theorem execute_actions_eq (c e : Option AxnBehavior) (hne : ¬(c = none ∧ e = none)) :
    execute_actions c e =
      match (runPhase c).2 with
      | some ex => ((runPhase c).1 ++ reverseTrace c e, some ex)
      | none =>
        match (runPhase e).2 with
        | some ex => ((runPhase c).1 ++ (runPhase e).1 ++ reverseTrace c e, some ex)
        | none => ((runPhase c).1 ++ (runPhase e).1 ++ cleanupTrace c e, none) := by
  cases c with
  | none =>
    cases e with
    | none => exact absurd ⟨rfl, rfl⟩ hne
    | some ea => rfl
  | some ca => cases e <;> rfl

/-- Whenever `_execute_actions` returns an exception, its call trace ends
with the reversal calls: extract reversed first, then fetch, each when
present. -/
theorem execute_actions_failure_reverses (c e : Option AxnBehavior) (ex : Nat)
    (h : (execute_actions c e).2 = some ex) :
    ∃ t, (execute_actions c e).1 = t ++ reverseTrace c e := by
  by_cases hne : c = none ∧ e = none
  · obtain ⟨h1, h2⟩ := hne
    subst h1; subst h2
    simp [execute_actions] at h
  · rcases hp1 : (runPhase c).2 with _ | ex1
    · rcases hp2 : (runPhase e).2 with _ | ex2
      · rw [execute_actions_eq c e hne, hp1, hp2] at h
        simp at h
      · rw [execute_actions_eq c e hne, hp1, hp2]
        exact ⟨(runPhase c).1 ++ (runPhase e).1, by simp⟩
    · rw [execute_actions_eq c e hne, hp1]
      exact ⟨(runPhase c).1, rfl⟩


/-- C7: for every ref whose fetch or extract action raises during
execution, the executor reverses the extract action first and then the
fetch action (each when present), captures the exception, and continues
with the remaining refs; afterwards the captured exceptions, if any, are
raised together as one aggregated multi-error, and otherwise execute()
returns normally.  Stated on any batch that reaches the per-ref loop
(the batch-level guard at the top of execute() does not fire; when it
does, nothing executes and execute() returns normally, so the claim is
vacuous there). -/
theorem c7_executor_error_handling (pa : PairedActions)
    (hguard : executeGuardReturns pa = false) : executeBehaviorSpec pa := by
  unfold executeBehaviorSpec pfe_execute
  rw [hguard]
  refine ⟨rfl, rfl, ?_⟩
  intro p hp ex hex
  refine ⟨execute_actions_failure_reverses _ _ _ hex, ?_⟩
  exact List.mem_filterMap.mpr
    ⟨execute_actions p.2.1 p.2.2, List.mem_map_of_mem _ hp, hex⟩

/-- Witness for C7: a concrete two-ref batch, first ref failing at fetch. -/
theorem c7_executor_error_handling_witness :
    executeGuardReturns mixedBatch = false ∧ executeBehaviorSpec mixedBatch :=
  ⟨by decide, c7_executor_error_handling mixedBatch (by decide)⟩

/-- C1 fails on the code: on a batch holding a single ref planned
(None, extract), execute() returns at the batch-level guard
`if not self.cache_actions or not self.extract_actions: return` without
making a single call, although `_execute_actions` on that ref would have
verified, executed and cleaned up the planned extract action.  The spec
itself flags this short-circuit as a likely bug (design note 4). -/
theorem c1_guard_suppresses_planned_extract :
    pfe_execute extractOnlyBatch = ([], Except.ok ())
    ∧ execute_actions none (some { id := 1 }) =
        ([.verify 1, .execute 1, .cleanup 1], none) := by
  constructor
  · rfl
  · rfl

/-- C2 fails on the code: after `add_url` of a fresh URL, the URL is
stored in both the per-subdir bucket and the global bucket, and its
basename is exactly the filename `get_url` searches for, yet `get_url`
returns None, because `first(self._urls_data, ...)` iterates the dict
KEYS ("ch/linux-64" and None), not the stored URLs.  The class comment
says the structure "should basically be thought of as a sequence" of
URLs, and the caller `_make_single_record` uses the result as the origin
URL, so the key iteration is a slip. -/
theorem c2_get_url_never_finds_url :
    get_url (add_url exampleChanInfo ⟨[]⟩ exampleUrl) "a-1-0.tar.bz2" = none
    ∧ (add_url exampleChanInfo ⟨[]⟩ exampleUrl).buckets
        = [(some "ch/linux-64", [exampleUrl]), (none, [exampleUrl])]
    ∧ osBasename exampleUrl = "a-1-0.tar.bz2" := by
  refine ⟨by decide, by decide, by decide⟩

/-- C3: whenever the ref carries a truthy md5 and some configured cache
(writable or read-only) holds an extracted record equal to the ref, the
planner answers (None, None): rule R0 fires before any other rule. -/
theorem c3_planner_r0_no_actions (caches : List PCache)
    (parseChannel : String → Option (String × String)) (pref : PackageRef)
    (hmd5 : truthy pref.md5 = true)
    (hext : ∃ c ∈ caches, ∃ r ∈ c.records,
        refMatch r.ref pref = true ∧ r.is_extracted = true) :
    make_actions_for_record caches parseChannel pref = .ok (none, none) := by
  obtain ⟨c, hc, r, hr, hm, hx⟩ := hext
  have hany : ((caches.flatMap fun c => c.query pref).any (·.is_extracted)) = true := by
    rw [List.any_eq_true]
    refine ⟨r, List.mem_flatMap.mpr ⟨c, hc, ?_⟩, hx⟩
    exact List.mem_filter.mpr ⟨hr, hm⟩
  unfold make_actions_for_record
  rw [if_pos ⟨hmd5, hany⟩]

/-- Witness for C3: scenario S2 of the spec, one read-only cache holding
the extracted record. -/
theorem c3_planner_r0_no_actions_witness :
    (truthy s2ref.md5 = true
      ∧ ∃ c ∈ [s2cache], ∃ r ∈ c.records,
          refMatch r.ref s2ref = true ∧ r.is_extracted = true)
    ∧ make_actions_for_record [s2cache] (fun _ => none) s2ref = .ok (none, none) :=
  ⟨⟨by decide, s2cache, by decide, s2rec, by decide, by decide, by decide⟩,
    c3_planner_r0_no_actions [s2cache] (fun _ => none) s2ref (by decide)
      ⟨s2cache, by decide, s2rec, by decide, by decide, by decide⟩⟩

/-- C4 fails on the code: with an empty writable cache first and a
read-only cache whose record matches the ref by channel-stripped dist
string, `get_entry_to_link` raises CondaError even though the no-channel
scan of the read-only cache would find the record.  The fallback
`next((cache._scan_for_dist_no_channel(dist_str) for cache in caches if cache), None)`
returns the FIRST generator item — the first (writable) cache's scan
result, here None — so later caches are never consulted, contradicting
the adjacent comment "we'll search all caches for a match". -/
theorem c4_fallback_ignores_later_caches :
    get_entry_to_link [wCacheEmpty, roCacheHit] unkRef
      = Except.error "CondaError: No package found in cache directories."
    ∧ _scan_for_dist_no_channel roCacheHit (rsplitColonLast unkRef.dist_str)
        = some roRec := by
  refine ⟨by decide, by decide⟩

/-- C8 fails on the code: `is_writable` computes
`self.__is_writable or self._check_writable()`, and False is falsy, so a
root once probed not-writable is probed AGAIN on the next access and
reports writable as soon as a probe succeeds; only True is latched.
Concretely: two accesses, the first probe denied, the second granted,
report [False, True] — the root transitions back to writable. -/
theorem c8_not_writable_is_reprobed :
    run_accesses [probeDenied, probeGranted] none = ([false, true], some true) := by
  decide

/-- C8 amended: a root probed writable keeps reporting writable with no
further gateway call; a cached not-writable (or unset) value re-runs
`_check_writable` and reports its fresh outcome; probing a root whose
directory does not exist creates the directory and magic file and sets
writability from the creation outcome. -/
theorem c8_writability_caching (env : ProbeEnv) (p c : Bool) :
    is_writable_access env (some true) = ((true, []), some true)
    ∧ is_writable_access env (some false)
        = (check_writable env, some (check_writable env).1)
    ∧ is_writable_access env none
        = (check_writable env, some (check_writable env).1)
    ∧ is_writable_access ⟨false, p, c⟩ none
        = ((c, [.createdCacheDir]), some c) :=
  ⟨rfl, rfl, rfl, rfl⟩

/-- C9 fails on the code, in both halves.  Equality: `Dist.__eq__`
compares `hash(self.pkey)` with `hash(other)`, and pkey ignores
build_number and with_features_depends, so `distEqA` and `distEqB`
compare equal (their pkey strings are identical, hence their hashes are
equal under the real interpreter hash just as under the sample hash
used here) while their 5-tuples differ.  Ordering: `Dist.__lt__`
compares (channel, dist_name, with_features_depends) — dist_name is the
single joined string "name-version-build" — and on `distLtA`, `distLtB`
it answers False where the claimed 5-tuple lexicographic order answers
True. -/
theorem c9_eq_lt_counterexample :
    Dist.eqPy hsLen distEqA (.dist distEqB) = true
    ∧ claimTuple distEqA ≠ claimTuple distEqB
    ∧ distEqA.pkey = distEqB.pkey
    ∧ Dist.ltPy distLtA distLtB = Except.ok false
    ∧ claimTupleLt distLtA distLtB = true := by
  refine ⟨by decide, by decide, by decide, by decide, by decide⟩

/-- C9 amended: two Dists are equal exactly when their pkey strings hash
equal — hence whenever the pkey strings are equal, which ignores
build_number and with_features_depends and drops the channel when it is
empty or the "<unknown>" sentinel — and the comparison operators order
Dists lexicographically over the `__key__` tuple
(channel, dist_name, with_features_depends), where comparing None with a
string in the last slot is a type error. -/
theorem c9_eq_lt_amended (hs : String → Int) (d d2 : Dist) :
    (Dist.eqPy hs d (.dist d2) = true ↔ hs d.pkey = hs d2.pkey)
    ∧ (d.pkey = d2.pkey → Dist.eqPy hs d (.dist d2) = true)
    ∧ Dist.ltPy d d2 = keyTupleLt d.keyTuple d2.keyTuple := by
  refine ⟨?_, fun h => ?_, rfl⟩
  · simp [Dist.eqPy, pyHash]
  · simp [Dist.eqPy, pyHash, h]

/-- Witness for C9 amended: the equal-pkey pair under the sample hash. -/
theorem c9_eq_lt_amended_witness :
    distEqA.pkey = distEqB.pkey ∧ Dist.eqPy hsLen distEqA (.dist distEqB) = true :=
  ⟨by decide, (c9_eq_lt_amended hsLen distEqA distEqB).2.1 (by decide)⟩

/-- C10: Dist equality is decided purely by hash comparison — a Dist
compares equal to any modelled object whose hash equals the hash of the
pkey string of the Dist; in particular every Dist equals the plain
string of its own pkey, and two Dists differing only in build_number or
with_features_depends are equal. -/
theorem c10_dist_eq_is_hash_eq (hs : String → Int) (d : Dist) (o : PyObj) :
    (pyHash hs o = hs d.pkey → Dist.eqPy hs d o = true)
    ∧ Dist.eqPy hs d (.str d.pkey) = true
    ∧ ∀ (bn : Int) (w : Option String),
        Dist.eqPy hs d
          (.dist { d with build_number := bn, with_features_depends := w }) = true := by
  refine ⟨fun h => ?_, ?_, fun bn w => ?_⟩
  · have hu : Dist.eqPy hs d o = (hs d.pkey == pyHash hs o) := rfl
    rw [hu, h]
    exact beq_self_eq_true _
  · simp [Dist.eqPy, pyHash]
  · have hp : Dist.pkey { d with build_number := bn, with_features_depends := w }
        = d.pkey := rfl
    simp [Dist.eqPy, pyHash, hp]

/-- Witness for C10: a foreign object carrying the right hash value
compares equal to the Dist. -/
theorem c10_dist_eq_is_hash_eq_witness :
    pyHash hsLen (.other 9) = hsLen distEqA.pkey
    ∧ Dist.eqPy hsLen distEqA (.other 9) = true :=
  ⟨by decide, (c10_dist_eq_is_hash_eq hsLen distEqA (.other 9)).1 (by decide)⟩


/-! ## Dedup lemmas (for C5 and C6) -/

/-- Appending the empty string is the identity. -/
theorem strAppendEmpty (s : String) : s ++ "" = s := by
  apply String.ext
  rw [String.data_append]
  simp

/-- String append is associative. -/
theorem strAppend_assoc (a b c : String) : a ++ b ++ c = a ++ (b ++ c) := by
  apply String.ext
  simp [String.data_append]

/-- Right cancellation for string append. -/
theorem strAppendCancelRight {a b c : String} (h : a ++ c = b ++ c) : a = b := by
  apply String.ext
  have hd : a.data ++ c.data = b.data ++ c.data := by
    rw [← String.data_append, ← String.data_append, h]
  exact List.append_cancel_right hd

/-- A character list lexicographically precedes itself extended by a
nonempty list. -/
theorem listCharLtAppend : ∀ (l m : List Char), m ≠ [] → l < l ++ m := by
  intro l
  induction l with
  | nil =>
    intro m hm
    cases m with
    | nil => exact absurd rfl hm
    | cons c cs => exact List.Lex.nil
  | cons a l ih =>
    intro m hm
    exact List.Lex.cons (ih m hm)

/-- A string strictly precedes itself extended by a nonempty string. -/
theorem strLt_append (s t : String) (ht : t ≠ "") : strLt s (s ++ t) := by
  have htd : t.data ≠ [] := fun hd => ht (String.ext hd)
  show s.data < (s ++ t).data
  rw [String.data_append]
  exact listCharLtAppend s.data t.data htd

/-- The reduce pass of the dedup walks the tail accumulating `pairsOut`
and carrying `lastOf`. -/
theorem foldl_dedupeStep : ∀ (ys : List String) (c : List String) (x : String),
    ys.foldl dedupeStep (c, x) = (c ++ pairsOut x ys, lastOf x ys)
  | [], c, x => by simp [pairsOut, lastOf]
  | y :: ys, c, x => by
    rw [List.foldl_cons]
    by_cases h : x ++ CONDA_TARBALL_EXTENSION = y
    · rw [show dedupeStep (c, x) y = (c, y) from by simp [dedupeStep, h]]
      rw [foldl_dedupeStep ys c y]
      simp [pairsOut, lastOf, h]
    · rw [show dedupeStep (c, x) y = (c ++ [x], y) from by simp [dedupeStep, h]]
      rw [foldl_dedupeStep ys (c ++ [x]) y]
      simp [pairsOut, lastOf, h]

/-- The pair-dedup rule emits exactly `pairsOut` followed by the final
element. -/
theorem pairDedupSpec_eq : ∀ (ys : List String) (x : String),
    pairDedupSpec (x :: ys) = pairsOut x ys ++ [lastOf x ys]
  | [], x => by simp [pairDedupSpec, pairsOut, lastOf]
  | y :: ys, x => by
    rw [show pairDedupSpec (x :: y :: ys) =
        if x ++ CONDA_TARBALL_EXTENSION = y then pairDedupSpec (y :: ys)
        else x :: pairDedupSpec (y :: ys) from rfl]
    rw [pairDedupSpec_eq ys y]
    by_cases h : x ++ CONDA_TARBALL_EXTENSION = y <;> simp [pairsOut, lastOf, h]

/-- Every element the reduce pass appends comes from the listing. -/
theorem mem_pairsOut : ∀ (ys : List String) (x z : String),
    z ∈ pairsOut x ys → z ∈ x :: ys
  | [], x, z => by simp [pairsOut]
  | y :: ys, x, z => by
    simp only [pairsOut, List.mem_append]
    intro h
    rcases h with h | h
    · by_cases hxy : x ++ CONDA_TARBALL_EXTENSION = y
      · simp [hxy] at h
      · simp [hxy] at h
        simp [h]
    · have hm := mem_pairsOut ys y z h
      simp only [List.mem_cons] at hm ⊢
      tauto

/-- In a sorted listing every element precedes the final element. -/
theorem le_lastOf : ∀ (ys : List String) (x : String),
    List.Sorted strLe (x :: ys) → ∀ z ∈ x :: ys, strLe z (lastOf x ys)
  | [], x, _, z, hz => by
    simp at hz
    rw [hz]
    exact le_refl x.data
  | y :: ys, x, hs, z, hz => by
    have hxy : strLe x y := (List.sorted_cons.mp hs).1 y (by simp)
    have htail : List.Sorted strLe (y :: ys) := (List.sorted_cons.mp hs).2
    rw [show lastOf x (y :: ys) = lastOf y ys from rfl]
    rcases List.mem_cons.mp hz with h | h
    · subst h
      exact le_trans hxy (le_lastOf ys y htail y (by simp))
    · exact le_lastOf ys y htail z h

/-- On a sorted listing, the final `_process(last, contents and
contents[-1] or "")` call always appends the carry: the comparison
string is either empty or an earlier (hence not larger) element, never
the carry extended by the tarball extension. -/
theorem dedupe_guard_holds (x : String) (rest : List String)
    (hs : List.Sorted strLe (x :: rest)) :
    lastOf x rest ++ CONDA_TARBALL_EXTENSION ≠ (pairsOut x rest).getLastD "" := by
  intro hcontra
  have hmem := List.getLastD_mem_cons (pairsOut x rest) ""
  rcases List.mem_cons.mp hmem with hg | hg
  · rw [hg] at hcontra
    have hd : (lastOf x rest ++ CONDA_TARBALL_EXTENSION).data = [] := by rw [hcontra]
    rw [String.data_append] at hd
    exact absurd (List.append_eq_nil.mp hd).2 (by decide)
  · have hz := le_lastOf rest x hs _ (mem_pairsOut rest x _ hg)
    rw [← hcontra] at hz
    have hlt := strLt_append (lastOf x rest) CONDA_TARBALL_EXTENSION (by decide)
    have hzd : (lastOf x rest ++ CONDA_TARBALL_EXTENSION).data ≤ (lastOf x rest).data := hz
    have hltd : (lastOf x rest).data < (lastOf x rest ++ CONDA_TARBALL_EXTENSION).data := hlt
    exact absurd (lt_of_lt_of_le hltd hzd) (lt_irrefl _)

/-- The source dedup equals the pair-dedup rule of the spec applied to
the sorted listing. -/
theorem dedupe_eq_pairDedupSpec (l : List String) :
    _dedupe_pkgs_dir_contents l = pairDedupSpec (sortList l) := by
  rcases hsl : sortList l with _ | ⟨x, rest⟩
  · unfold _dedupe_pkgs_dir_contents
    rw [hsl]
    rfl
  · have hsorted : List.Sorted strLe (x :: rest) := by
      rw [← hsl]
      exact List.sorted_insertionSort strLe l
    unfold _dedupe_pkgs_dir_contents
    rw [hsl]
    show (if (rest.foldl dedupeStep ([], x)).2 ++ CONDA_TARBALL_EXTENSION
            ≠ (rest.foldl dedupeStep ([], x)).1.getLastD ""
          then (rest.foldl dedupeStep ([], x)).1 ++ [(rest.foldl dedupeStep ([], x)).2]
          else (rest.foldl dedupeStep ([], x)).1)
        = pairDedupSpec (x :: rest)
    rw [foldl_dedupeStep rest [] x]
    simp only [List.nil_append]
    rw [if_pos (dedupe_guard_holds x rest hsorted)]
    exact (pairDedupSpec_eq rest x).symm

/-- C5: the dedup step sorts the listing and applies exactly the
pairwise rule — whenever an element is immediately followed by itself
plus the tarball extension, only the tarball name is emitted, and every
other element is emitted unchanged; on scenario S1 the listing dedupes
as the spec displays. -/
theorem c5_dedupe_is_pair_rule :
    (∀ l, _dedupe_pkgs_dir_contents l = pairDedupSpec (sortList l))
    ∧ _dedupe_pkgs_dir_contents ["a-1-0", "a-1-0.tar.bz2", "b-2-0", "c-3-0.tar.bz2"]
        = ["a-1-0.tar.bz2", "b-2-0", "c-3-0.tar.bz2"] :=
  ⟨dedupe_eq_pairDedupSpec, by decide⟩

/-- The pair-dedup output is a sublist of its input. -/
theorem pairDedupSpec_sublist : ∀ (s : List String), List.Sublist (pairDedupSpec s) s := by
  intro s
  induction s with
  | nil => simp [pairDedupSpec]
  | cons x rest ih =>
    cases rest with
    | nil => simp [pairDedupSpec]
    | cons y ys =>
      rw [show pairDedupSpec (x :: y :: ys) =
          if x ++ CONDA_TARBALL_EXTENSION = y then pairDedupSpec (y :: ys)
          else x :: pairDedupSpec (y :: ys) from rfl]
      by_cases h : x ++ CONDA_TARBALL_EXTENSION = y
      · rw [if_pos h]
        exact ih.cons x
      · rw [if_neg h]
        exact ih.cons₂ x

/-- The tarball extension commutes with its own powers. -/
theorem extPow_succ_left (k : Nat) :
    CONDA_TARBALL_EXTENSION ++ extPow k = extPow k ++ CONDA_TARBALL_EXTENSION := by
  induction k with
  | zero =>
    apply String.ext
    simp [extPow, String.data_append]
  | succ n ih =>
    rw [show extPow (n + 1) = extPow n ++ CONDA_TARBALL_EXTENSION from rfl,
      ← strAppend_assoc, ih]

/-- Nonzero powers of the tarball extension are nonempty. -/
theorem extPow_succ_ne_empty (k : Nat) : extPow (k + 1) ≠ "" := by
  intro h
  have hd : (extPow k ++ CONDA_TARBALL_EXTENSION).data = [] := by
    rw [show extPow k ++ CONDA_TARBALL_EXTENSION = extPow (k + 1) from rfl, h]
  rw [String.data_append] at hd
  exact absurd (List.append_eq_nil.mp hd).2 (by decide)

/-- The head of the pair-dedup output of `y :: r` is y extended by some
power of the tarball extension. -/
theorem head_pairDedupSpec : ∀ (r : List String) (y : String),
    ∃ k, (pairDedupSpec (y :: r)).head? = some (y ++ extPow k)
  | [], y => by
    refine ⟨0, ?_⟩
    show some y = some (y ++ extPow 0)
    rw [show extPow 0 = "" from rfl, strAppendEmpty]
  | y2 :: r, y => by
    by_cases h : y ++ CONDA_TARBALL_EXTENSION = y2
    · obtain ⟨k, hk⟩ := head_pairDedupSpec r y2
      refine ⟨k + 1, ?_⟩
      rw [show pairDedupSpec (y :: y2 :: r) = pairDedupSpec (y2 :: r) from by
        rw [show pairDedupSpec (y :: y2 :: r) =
            if y ++ CONDA_TARBALL_EXTENSION = y2 then pairDedupSpec (y2 :: r)
            else y :: pairDedupSpec (y2 :: r) from rfl, if_pos h]]
      rw [hk, ← h, strAppend_assoc, extPow_succ_left]
      rfl
    · refine ⟨0, ?_⟩
      rw [show pairDedupSpec (y :: y2 :: r) = y :: pairDedupSpec (y2 :: r) from by
        rw [show pairDedupSpec (y :: y2 :: r) =
            if y ++ CONDA_TARBALL_EXTENSION = y2 then pairDedupSpec (y2 :: r)
            else y :: pairDedupSpec (y2 :: r) from rfl, if_neg h]]
      show some y = some (y ++ extPow 0)
      rw [show extPow 0 = "" from rfl, strAppendEmpty]

/-- On a strictly sorted listing the pair-dedup output has no adjacent
(x, x plus extension) pair left. -/
theorem noAdj_pairDedupSpec : ∀ (s : List String),
    List.Sorted strLt s → noAdjPair (pairDedupSpec s) := by
  intro s
  induction s with
  | nil => intro _; simp [pairDedupSpec, noAdjPair]
  | cons x rest ih =>
    intro hs
    cases rest with
    | nil => simp [pairDedupSpec, noAdjPair]
    | cons y ys =>
      have hxy : strLt x y := (List.sorted_cons.mp hs).1 y (by simp)
      have htail : List.Sorted strLt (y :: ys) := (List.sorted_cons.mp hs).2
      by_cases h : x ++ CONDA_TARBALL_EXTENSION = y
      · rw [show pairDedupSpec (x :: y :: ys) = pairDedupSpec (y :: ys) from by
          rw [show pairDedupSpec (x :: y :: ys) =
              if x ++ CONDA_TARBALL_EXTENSION = y then pairDedupSpec (y :: ys)
              else x :: pairDedupSpec (y :: ys) from rfl, if_pos h]]
        exact ih htail
      · rw [show pairDedupSpec (x :: y :: ys) = x :: pairDedupSpec (y :: ys) from by
          rw [show pairDedupSpec (x :: y :: ys) =
              if x ++ CONDA_TARBALL_EXTENSION = y then pairDedupSpec (y :: ys)
              else x :: pairDedupSpec (y :: ys) from rfl, if_neg h]]
        refine List.chain'_cons'.mpr ⟨?_, ih htail⟩
        intro z hz
        obtain ⟨k, hk⟩ := head_pairDedupSpec ys y
        rw [hk] at hz
        have hzz : y ++ extPow k = z := by simpa using hz
        subst hzz
        cases k with
        | zero =>
          rw [show extPow 0 = "" from rfl, strAppendEmpty]
          exact h
        | succ j =>
          intro heq
          have heq2 : x ++ CONDA_TARBALL_EXTENSION
              = (y ++ extPow j) ++ CONDA_TARBALL_EXTENSION := by
            rw [heq, show extPow (j + 1) = extPow j ++ CONDA_TARBALL_EXTENSION from rfl,
              ← strAppend_assoc]
          have hx : x = y ++ extPow j := strAppendCancelRight heq2
          cases j with
          | zero =>
            rw [show extPow 0 = "" from rfl, strAppendEmpty] at hx
            rw [hx] at hxy
            have hyy : y.data < y.data := hxy
            exact absurd hyy (lt_irrefl _)
          | succ m =>
            have hlt2 : strLt y (y ++ extPow (m + 1)) :=
              strLt_append y _ (extPow_succ_ne_empty m)
            rw [← hx] at hlt2
            have hxyd : x.data < y.data := hxy
            have hyxd : y.data < x.data := hlt2
            exact absurd (lt_trans hxyd hyxd) (lt_irrefl _)

/-- The pair-dedup rule fixes any listing with no adjacent pair left. -/
theorem pairDedupSpec_fix : ∀ (s : List String), noAdjPair s → pairDedupSpec s = s := by
  intro s
  induction s with
  | nil => intro _; rfl
  | cons x rest ih =>
    intro h
    cases rest with
    | nil => rfl
    | cons y ys =>
      have hxy : x ++ CONDA_TARBALL_EXTENSION ≠ y := (List.chain'_cons.mp h).1
      have ht : noAdjPair (y :: ys) := (List.chain'_cons.mp h).2
      rw [show pairDedupSpec (x :: y :: ys) =
          if x ++ CONDA_TARBALL_EXTENSION = y then pairDedupSpec (y :: ys)
          else x :: pairDedupSpec (y :: ys) from rfl, if_neg hxy, ih ht]

/-- A weakly sorted duplicate-free listing is strictly sorted. -/
theorem sorted_lt_of_sorted_le_nodup (s : List String)
    (hs : List.Sorted strLe s) (hn : s.Nodup) : List.Sorted strLt s := by
  have hand := hs.and hn
  exact hand.imp fun hab =>
    lt_of_le_of_ne hab.1 fun hdc => hab.2 (String.ext hdc)

/-- C6 fails on the code for listings with duplicates: on
["x-1-0", "x-1-0", "x-1-0.tar.bz2"] the dedup emits
["x-1-0", "x-1-0.tar.bz2"] (the middle duplicate shields the first
element from its tarball), and a second dedup then drops "x-1-0". -/
theorem c6_dedupe_not_idempotent :
    _dedupe_pkgs_dir_contents (_dedupe_pkgs_dir_contents dupListing)
      ≠ _dedupe_pkgs_dir_contents dupListing := by decide

/-- C6 amended: the dedup is idempotent on every duplicate-free listing
(which every real directory listing is). -/
theorem c6_dedupe_idempotent_nodup (l : List String) (hn : l.Nodup) :
    _dedupe_pkgs_dir_contents (_dedupe_pkgs_dir_contents l)
      = _dedupe_pkgs_dir_contents l := by
  have hd := dedupe_eq_pairDedupSpec l
  have hsortedLe : List.Sorted strLe (sortList l) := List.sorted_insertionSort strLe l
  have hnodupS : (sortList l).Nodup := (List.perm_insertionSort strLe l).nodup_iff.mpr hn
  have hsortedLt : List.Sorted strLt (sortList l) :=
    sorted_lt_of_sorted_le_nodup _ hsortedLe hnodupS
  have hsub : List.Sublist (pairDedupSpec (sortList l)) (sortList l) :=
    pairDedupSpec_sublist _
  have houtSortedLt : List.Sorted strLt (pairDedupSpec (sortList l)) :=
    List.Pairwise.sublist hsub hsortedLt
  have houtSortedLe : List.Sorted strLe (pairDedupSpec (sortList l)) :=
    houtSortedLt.imp fun h => le_of_lt h
  have hfix : sortList (pairDedupSpec (sortList l)) = pairDedupSpec (sortList l) :=
    houtSortedLe.insertionSort_eq
  have hnoadj : noAdjPair (pairDedupSpec (sortList l)) :=
    noAdj_pairDedupSpec _ hsortedLt
  calc _dedupe_pkgs_dir_contents (_dedupe_pkgs_dir_contents l)
      = _dedupe_pkgs_dir_contents (pairDedupSpec (sortList l)) := by rw [hd]
    _ = pairDedupSpec (sortList (pairDedupSpec (sortList l))) :=
        dedupe_eq_pairDedupSpec _
    _ = pairDedupSpec (pairDedupSpec (sortList l)) := by rw [hfix]
    _ = pairDedupSpec (sortList l) := pairDedupSpec_fix _ hnoadj
    _ = _dedupe_pkgs_dir_contents l := hd.symm

/-- Witness for C6 amended: a concrete duplicate-free listing. -/
theorem c6_dedupe_idempotent_nodup_witness :
    nodupListing.Nodup
    ∧ _dedupe_pkgs_dir_contents (_dedupe_pkgs_dir_contents nodupListing)
        = _dedupe_pkgs_dir_contents nodupListing :=
  ⟨by decide, c6_dedupe_idempotent_nodup nodupListing (by decide)⟩

end CondaPC
